import Mathlib

/-!
Verification of the quiz-bot conversation core of `app.py`.

The Python source drives a per-user finite-state machine with three steps
(`waiting_question`, `waiting_answer`, `waiting_confirmation`), an ordered
question catalog built from fetched records, comma/space/width-insensitive
answer normalization, and an answer log.  The definitions below are a direct
shallow embedding of that code: Python dicts become association lists that
keep the first-insertion position of every key and overwrite values in place,
exceptions (`KeyError`, `IndexError`) become `Except.error`, and the one call
to `random.choice` is parameterized by the chosen index.
-/

namespace Medubot

/-- Character-wise model of Python `unicodedata.normalize("NFKC", ·)`: the
full-width ASCII block U+FF01..U+FF5E maps to U+0021..U+007E and the
ideographic space U+3000 maps to the ASCII space; every other character is
left unchanged.  This model is exact precisely on strings drawn from ASCII,
the full-width block, and U+3000 (and on the composed-kana literals used by
the reserved tokens): those characters carry no combining marks, so real
NFKC performs no canonical composition on such strings and acts
character-wise.  Real NFKC is NOT character-wise in general — it recomposes
(e.g. "a" followed by U+0301 becomes "á") and folds half-width kana and
ligatures — so theorems quantifying over arbitrary strings must restrict
their inputs to the modeled domain. -/
def nfkcChar (c : Char) : Char :=
  if c.toNat = 0x3000 then ' '
  else if 0xFF01 ≤ c.toNat ∧ c.toNat ≤ 0xFF5E then Char.ofNat (c.toNat - 0xFF01 + 0x21)
  else c

/-- `nfkcChar` lifted to strings; exact on the same domain as `nfkcChar`
(see its scope note — real NFKC can merge adjacent characters, which no
character-wise map can). -/
def nfkcStr (s : String) : String :=
  String.mk (s.data.map nfkcChar)

/-- Character-wise model of Python `str.lower`, exact on the ASCII range;
real `str.lower` also lowers non-ASCII cased letters (e.g. "Ä"), so
theorems quantifying over arbitrary strings must restrict their inputs to
the modeled domain. -/
def lowerChar (c : Char) : Char :=
  if 'A' ≤ c ∧ c ≤ 'Z' then Char.ofNat (c.toNat + 32) else c

def lowerStr (s : String) : String :=
  String.mk (s.data.map lowerChar)

/-- Character-wise model of Python `str.upper` on the ASCII range. -/
def upperChar (c : Char) : Char :=
  if 'a' ≤ c ∧ c ≤ 'z' then Char.ofNat (c.toNat - 32) else c

def upperStr (s : String) : String :=
  String.mk (s.data.map upperChar)

/-- Python `str.strip()`: drop leading and trailing whitespace. -/
def pyStrip (s : String) : String :=
  String.mk (((s.data.dropWhile Char.isWhitespace).reverse.dropWhile Char.isWhitespace).reverse)

def splitCommaAux : List Char → List (List Char)
  | [] => [[]]
  | c :: cs =>
    if c = ',' then [] :: splitCommaAux cs
    else
      match splitCommaAux cs with
      | [] => [[c]]
      | g :: gs => (c :: g) :: gs

/-- Python `s.split(",")`: the comma-separated pieces of `s` (one empty
piece for the empty string). -/
def splitComma (s : String) : List String :=
  (splitCommaAux s.data).map String.mk

/-- `answer.replace(",", "").replace(" ", "")`: delete every comma and every
space character. -/
def stripCommaSpace (s : String) : String :=
  String.mk (s.data.filter (fun c => !(c == ',' || c == ' ')))

/-- `normalize_answer` from `app.py`: NFKC-normalize, delete commas and
spaces, sort the characters into ascending code-point order
(`"".join(sorted(answer))`), then lower-case. -/
def normalize_answer (answer : String) : String :=
  lowerStr (String.mk (List.insertionSort (fun a b => a ≤ b) (stripCommaSpace (nfkcStr answer)).data))

/-- One fetched question record (field names romanized from the Japanese
sheet columns: 問題ID, 問題文, 選択肢, 画像URL, 正解, 解説, 正答率, テーマ,
カテゴリ). -/
structure Question where
  id : String
  prompt : String
  choices : String
  imageUrl : String
  answer : String
  explanation : String
  accuracy : String
  theme : String
  category : String
deriving DecidableEq, Repr

/-- Python `dict` membership test on an association list. -/
def dictHas (m : List (String × Question)) (k : String) : Bool :=
  m.any (fun p => p.1 == k)

/-- Python `dict[k]` lookup (first entry with the key; keys built by
`insertEntry` are unique). -/
def dictLookup (k : String) : List (String × Question) → Option Question
  | [] => none
  | p :: ps => if p.1 == k then some p.2 else dictLookup k ps

/-- Python `dict[k] = v`: overwrite the value in place when the key exists
(keeping its original position), otherwise append the new entry. -/
def insertEntry (m : List (String × Question)) (k : String) (v : Question) :
    List (String × Question) :=
  if dictHas m k then m.map (fun p => if p.1 == k then (k, v) else p)
  else m ++ [(k, v)]

/-- `{question["問題ID"]: question for question in question_list}` from
`build_questions_and_categories`. -/
def buildDict (rs : List Question) : List (String × Question) :=
  rs.foldl (fun m q => insertEntry m q.id q) []

/-- `list(questions.keys())`. -/
def dictKeys (m : List (String × Question)) : List String :=
  m.map Prod.fst

/-- The category collection built from `questions_.values()`.  Python stores
it in a `set`; only membership is observed by the state machine, so we keep
the value list itself. -/
def categoriesOf (m : List (String × Question)) : List String :=
  m.map (fun p => p.2.category)

/-- The process-global environment built at startup: `questions`,
`categories`, and `taunting_responses`. -/
structure Env where
  questions : List (String × Question)
  categories : List String
  taunts : List String

def buildEnv (rs : List Question) (taunts : List String) : Env :=
  ⟨buildDict rs, categoriesOf (buildDict rs), taunts⟩

inductive Step
  | waitingQuestion
  | waitingAnswer
  | waitingConfirmation
deriving DecidableEq, Repr

/-- One user's entry in `user_states`.  `questionId = none` models the
`"question_id"` key being absent from the Python dict (it is never deleted
once set, only overwritten). -/
structure Session where
  step : Step
  category : Option String
  questionId : Option String
deriving DecidableEq, Repr

/-- The session created on first contact:
`{"step": "waiting_question", "category": None}` with no question id. -/
def initSession : Session :=
  ⟨.waitingQuestion, none, none⟩

/-- An outbound LINE message: `TextSendMessage` or `ImageSendMessage`. -/
inductive Msg
  | text (s : String)
  | image (url : String)
deriving DecidableEq, Repr

/-- One row posted by `log_answer` (the question id is prefixed with a
single-quote character for spreadsheet escaping). -/
structure LogEvent where
  userId : String
  questionId : String
  userAnswer : String
  correctAnswer : String
  result : Bool
deriving DecidableEq, Repr

/-- The single-quote prefix `"'"` that `log_answer` prepends to the
question id. -/
def quotePrefix : String :=
  (Char.ofNat 39).toString

/-- A Python exception escaping `handle_message`. -/
inductive Err
  | keyError
  | indexError
deriving DecidableEq, Repr

/-- `random.choice(l)` given the index the generator happened to draw:
some element of the pool, or an `IndexError` on an empty pool. -/
def randomChoice (pick : Nat) (l : List α) : Option α :=
  l.get? (pick % l.length)

/-- `", ".join(l)`. -/
def joinComma : List String → String
  | [] => ""
  | [x] => x
  | x :: y :: xs => x ++ ", " ++ joinComma (y :: xs)

/-- `send_question` from `app.py`: look the question up (a missing id would
raise `KeyError`), build the text message plus one image message per
comma-separated URL when the image field is non-blank after stripping, and
update the session to `waiting_answer` on that question. -/
def send_question (env : Env) (s : Session) (qid : String) :
    Except Err (Session × List Msg) :=
  match dictLookup qid env.questions with
  | none => .error .keyError
  | some q =>
    let msgs := [Msg.text (q.id ++ "\n" ++ q.prompt ++ "\n" ++ q.choices)] ++
      (if pyStrip q.imageUrl ≠ "" then (splitComma q.imageUrl).map Msg.image else [])
    .ok ({ s with questionId := some qid, step := .waitingAnswer }, msgs)

/-- `handle_message` from `app.py`, for one user whose current session is
`s` and whose stripped message text is `t`.  Returns the mutated session,
the reply messages, and the emitted log events, or the escaping exception.
Notes kept faithful to the source:
* in the `waiting_answer` branch a missing session question id or an id
  absent from the catalog raises `KeyError` (`questions[state["question_id"]]`);
* on an incorrect answer `random.choice(taunting_responses)` raises
  `IndexError` when the pool is empty, and the raise skips the `log_answer`
  call placed after the reply;
* in the `"いいえ"` branch the state dict is updated before
  `state["category"]` is read, so the reply text is always the plain
  ending message;
* in the exhausted branch `state["category"]` is read before the reset, and
  Python truthiness makes the empty-string category read as falsy. -/
def handle_message (env : Env) (s : Session) (userId t : String) (pick : Nat) :
    Except Err (Session × List Msg × List LogEvent) :=
  match s.step with
  | .waitingQuestion =>
    let qid := upperStr t
    if dictHas env.questions qid then
      match send_question env s qid with
      | .error e => .error e
      | .ok (s2, msgs) => .ok (s2, msgs, [])
    else if t ∈ env.categories ∨ t = "すべて" then
      .ok ({ s with category := if t ≠ "すべて" then some t else none },
        [Msg.text (t ++ "を出題します\n最初の問題番号を入力してください")], [])
    else
      .ok (s,
        [Msg.text ("問題番号かカテゴリを入力してください\n" ++ joinComma env.categories ++ ", すべて")],
        [])
  | .waitingAnswer =>
    match s.questionId with
    | none => .error .keyError
    | some qid =>
      match dictLookup qid env.questions with
      | none => .error .keyError
      | some question =>
        let correct_answer := normalize_answer question.answer
        let user_answer := normalize_answer t
        let result := user_answer == correct_answer
        if result || t == "ギブアップ" then
          .ok ({ s with step := .waitingConfirmation },
            [Msg.text ((if result then "正解！" else "残念！") ++ "\n" ++ question.explanation ++
              "\n正答率: " ++ question.accuracy ++ "\nテーマ: " ++ question.theme ++
              "\nカテゴリ: " ++ question.category ++ "\n続けますか？ [はい/いいえ]")],
            [⟨userId, quotePrefix ++ qid, t, correct_answer, result⟩])
        else
          match randomChoice pick env.taunts with
          | none => .error .indexError
          | some taunt =>
            .ok (s, [Msg.text taunt], [⟨userId, quotePrefix ++ qid, t, correct_answer, result⟩])
  | .waitingConfirmation =>
    if t = "いいえ" then
      .ok ({ s with step := .waitingQuestion, category := none }, [Msg.text "終了します"], [])
    else
      match s.questionId with
      | none => .error .keyError
      | some qid =>
        let question_ids := dictKeys env.questions
        let remaining :=
          if qid ∈ question_ids then question_ids.drop (question_ids.indexOf qid + 1) else []
        let filtered :=
          match s.category with
          | none => remaining
          | some cat => remaining.filter (fun q =>
              match dictLookup q env.questions with
              | some qq => qq.category == cat
              | none => false)
        match filtered with
        | next :: _ =>
          match send_question env s next with
          | .error e => .error e
          | .ok (s2, msgs) => .ok (s2, msgs, [])
        | [] =>
          .ok ({ s with step := .waitingQuestion, category := none },
            [Msg.text
              (match s.category with
               | some c => if c = "" then "これが最後の問題です"
                 else "これが最後の問題です\nカテゴリフィルターをリセットします"
               | none => "これが最後の問題です")], [])

/-- The sessions reachable through `handle_message` from a fresh user's
initial session (mutations happen only on normal completion; every raising
branch of the Python code raises before it mutates the state dict). -/
inductive Reachable (env : Env) : Session → Prop
  | init : Reachable env initSession
  | step {s s' : Session} (userId t : String) (pick : Nat)
      (msgs : List Msg) (logs : List LogEvent) :
      Reachable env s → handle_message env s userId t pick = .ok (s', msgs, logs) →
      Reachable env s'

/-! ### Concrete fixtures used by counterexamples and witnesses -/

def sampleQ1 : Question :=
  ⟨"Q1", "p1", "c1", "", "A", "e1", "50%", "t1", "catA"⟩

def sampleQ2 : Question :=
  ⟨"Q2", "p2", "c2", "", "B", "e2", "60%", "t2", "catB"⟩

def sampleQ3 : Question :=
  ⟨"Q3", "p3", "c3", "", "C", "e3", "70%", "t3", "catA"⟩

/-- A question whose correct answer is the reserved give-up token. -/
def sampleQG : Question :=
  ⟨"QG", "pg", "cg", "", "ギブアップ", "eg", "10%", "tg", "catA"⟩

def env1 : Env :=
  buildEnv [sampleQ1] ["zako"]

def env3 : Env :=
  buildEnv [sampleQ1, sampleQ2, sampleQ3] ["zako"]

def envG : Env :=
  buildEnv [sampleQG] ["zako"]

/-- `env1` with the empty taunt pool returned by `fetch_taunting_responses`
when the fetch fails. -/
def envNoTaunts : Env :=
  buildEnv [sampleQ1] []

end Medubot

deriving instance DecidableEq for Except

namespace Medubot

/-! ### Reachable sessions of the one-question environment -/

theorem reachable_env1_answer :
    Reachable env1 ⟨.waitingAnswer, none, some "Q1"⟩ :=
  .step "U" "Q1" 0 [Msg.text "Q1\np1\nc1"] [] .init (by decide)

theorem reachable_env1_confirm :
    Reachable env1 ⟨.waitingConfirmation, none, some "Q1"⟩ :=
  .step "U" "A" 0
    [Msg.text "正解！\ne1\n正答率: 50%\nテーマ: t1\nカテゴリ: catA\n続けますか？ [はい/いいえ]"]
    [⟨"U", quotePrefix ++ "Q1", "A", "a", true⟩]
    reachable_env1_answer (by decide)

/-- After answering Q1 and replying "いいえ", the session is back in
`waitingQuestion` but still carries `questionId = some "Q1"`: the Python
update at the "いいえ" branch resets only `step` and `category`. -/
theorem reachable_env1_stale :
    Reachable env1 ⟨.waitingQuestion, none, some "Q1"⟩ :=
  .step "U" "いいえ" 0 [Msg.text "終了します"] [] reachable_env1_confirm (by decide)

/-! ### Branch-inversion helpers for `handle_message` -/

/-- `send_question` commits `question_id := qid` and `step := waiting_answer`
whenever it completes normally. -/
theorem send_question_ok {env : Env} {s s2 : Session} {qid : String} {msgs : List Msg}
    (h : send_question env s qid = .ok (s2, msgs)) :
    s2 = { s with questionId := some qid, step := .waitingAnswer } := by
  unfold send_question at h
  cases hl : dictLookup qid env.questions with
  | none => rw [hl] at h; exact absurd h (by simp)
  | some q =>
    rw [hl] at h
    simp only [Except.ok.injEq, Prod.mk.injEq] at h
    exact h.1.symm

/-- One normally-completed `handle_message` step preserves the property
"the question id is set whenever the step is not `waiting_question`". -/
theorem handle_ok_questionId {env : Env} {s s' : Session} {uid t : String} {pick : Nat}
    {msgs : List Msg} {logs : List LogEvent}
    (h : handle_message env s uid t pick = .ok (s', msgs, logs))
    (inv : s.step ≠ .waitingQuestion → s.questionId.isSome) :
    s'.step ≠ .waitingQuestion → s'.questionId.isSome := by
  obtain ⟨st, cat, qid⟩ := s
  cases st
  case waitingQuestion =>
    unfold handle_message at h
    dsimp only at h
    split at h
    · cases hsq : send_question env ⟨.waitingQuestion, cat, qid⟩ (upperStr t) with
      | error e => rw [hsq] at h; exact absurd h (by simp)
      | ok p =>
        obtain ⟨s2, msgs2⟩ := p
        rw [hsq] at h
        simp only [Except.ok.injEq, Prod.mk.injEq] at h
        obtain ⟨hs, -⟩ := h
        subst hs
        rw [send_question_ok hsq]
        intro _
        rfl
    · split at h
      · simp only [Except.ok.injEq, Prod.mk.injEq] at h
        obtain ⟨hs, -⟩ := h
        subst hs
        intro hne
        exact absurd rfl hne
      · simp only [Except.ok.injEq, Prod.mk.injEq] at h
        obtain ⟨hs, -⟩ := h
        subst hs
        intro hne
        exact absurd rfl hne
  case waitingAnswer =>
    unfold handle_message at h
    dsimp only at h
    cases qid with
    | none => exact absurd h (by simp)
    | some q =>
      dsimp only at h
      cases hl : dictLookup q env.questions with
      | none => rw [hl] at h; exact absurd h (by simp)
      | some question =>
        rw [hl] at h
        dsimp only at h
        split at h
        · simp only [Except.ok.injEq, Prod.mk.injEq] at h
          obtain ⟨hs, -⟩ := h
          subst hs
          intro _
          rfl
        · cases hc : randomChoice pick env.taunts with
          | none => rw [hc] at h; exact absurd h (by simp)
          | some taunt =>
            rw [hc] at h
            simp only [Except.ok.injEq, Prod.mk.injEq] at h
            obtain ⟨hs, -⟩ := h
            subst hs
            intro _
            rfl
  case waitingConfirmation =>
    unfold handle_message at h
    dsimp only at h
    split at h
    · simp only [Except.ok.injEq, Prod.mk.injEq] at h
      obtain ⟨hs, -⟩ := h
      subst hs
      intro hne
      exact absurd rfl hne
    · cases qid with
      | none => exact absurd h (by simp)
      | some q =>
        dsimp only at h
        split at h
        · cases hsq : send_question env ⟨.waitingConfirmation, cat, some q⟩ _ with
          | error e => rw [hsq] at h; exact absurd h (by simp)
          | ok p =>
            obtain ⟨s2, msgs2⟩ := p
            rw [hsq] at h
            simp only [Except.ok.injEq, Prod.mk.injEq] at h
            obtain ⟨hs, -⟩ := h
            subst hs
            rw [send_question_ok hsq]
            intro _
            rfl
        · simp only [Except.ok.injEq, Prod.mk.injEq] at h
          obtain ⟨hs, -⟩ := h
          subst hs
          intro hne
          exact absurd rfl hne

/-- The "いいえ" branch of `waiting_confirmation`: reset `step` and
`category`, keep the stale `question_id`, and reply with the plain ending
text (the Python code reads `state["category"]` only after resetting it). -/
theorem handle_confirmation_no (env : Env) (cat qid : Option String) (uid : String) (pick : Nat) :
    handle_message env ⟨.waitingConfirmation, cat, qid⟩ uid "いいえ" pick =
      .ok (⟨.waitingQuestion, none, qid⟩, [Msg.text "終了します"], []) := by
  unfold handle_message
  dsimp only
  rw [if_pos rfl]

/-! ### C1 -/

/-- C1, counterexample.  The claimed invariant "the current question
identifier is set if and only if the step is not AwaitingQuestion" fails on
a reachable state: after entering question Q1, answering it correctly, and
replying "いいえ", the session is back in `waitingQuestion` yet still holds
`questionId = some "Q1"` — the code clears only `step` and `category`. -/
theorem C1_counterexample :
    Reachable env1 ⟨.waitingQuestion, none, some "Q1"⟩ ∧
    ¬((Session.mk .waitingQuestion none (some "Q1")).questionId.isSome ↔
        (Session.mk .waitingQuestion none (some "Q1")).step ≠ .waitingQuestion) :=
  ⟨reachable_env1_stale, by decide⟩

/-- C1, amended.  For every reachable session state, the current question
identifier is set whenever the step is not AwaitingQuestion (the converse
direction of the claimed "if and only if" fails); and after the "no" token
in AwaitingConfirmation the session returns to AwaitingQuestion with the
category filter cleared but the current question identifier retained. -/
theorem C1_questionId_invariant :
    (∀ (env : Env) (s : Session), Reachable env s →
      s.step ≠ .waitingQuestion → s.questionId.isSome)
    ∧ (∀ (env : Env) (s : Session) (uid : String) (pick : Nat),
      s.step = .waitingConfirmation →
      handle_message env s uid "いいえ" pick =
        .ok (⟨.waitingQuestion, none, s.questionId⟩, [Msg.text "終了します"], [])) := by
  constructor
  · intro env s hr
    induction hr with
    | init => intro hne; exact absurd rfl hne
    | step userId t pick msgs logs h1 h2 ih => exact handle_ok_questionId h2 ih
  · intro env s uid pick hstep
    obtain ⟨st, cat, qid⟩ := s
    dsimp only at hstep
    subst hstep
    exact handle_confirmation_no env cat qid uid pick

/-- C1, witness: the amended invariant evaluated on a concrete reachable
state in `waitingAnswer`, and the "いいえ" transition evaluated on a
concrete confirmation state. -/
theorem C1_questionId_invariant_witness :
    (Session.mk .waitingAnswer none (some "Q1")).questionId.isSome ∧
    handle_message env1 ⟨.waitingConfirmation, none, some "Q1"⟩ "U" "いいえ" 0 =
      .ok (⟨.waitingQuestion, none, some "Q1"⟩, [Msg.text "終了します"], []) :=
  ⟨C1_questionId_invariant.1 env1 _ reachable_env1_answer (by decide),
   C1_questionId_invariant.2 env1 ⟨.waitingConfirmation, none, some "Q1"⟩ "U" 0 rfl⟩

/-! ### Dictionary and list helper lemmas -/

theorem dictLookup_isSome_of_dictHas {m : List (String × Question)} {k : String}
    (h : dictHas m k = true) : ∃ v, dictLookup k m = some v := by
  induction m with
  | nil => simp [dictHas] at h
  | cons p ps ih =>
    unfold dictHas at h
    simp only [List.any_cons, Bool.or_eq_true] at h
    unfold dictLookup
    by_cases hpk : (p.1 == k) = true
    · rw [if_pos hpk]
      exact ⟨p.2, rfl⟩
    · rw [if_neg hpk]
      apply ih
      rcases h with h | h
      · exact absurd h hpk
      · exact h

theorem dictLookup_isSome_of_mem_keys {m : List (String × Question)} {k : String}
    (h : k ∈ dictKeys m) : ∃ v, dictLookup k m = some v := by
  induction m with
  | nil => simp [dictKeys] at h
  | cons p ps ih =>
    unfold dictLookup
    by_cases hpk : (p.1 == k) = true
    · rw [if_pos hpk]
      exact ⟨p.2, rfl⟩
    · rw [if_neg hpk]
      apply ih
      rcases (by simpa [dictKeys] using h : k = p.1 ∨ k ∈ dictKeys ps) with h1 | h2
      · exact absurd (by simp [h1]) hpk
      · exact h2

theorem not_mem_keys_of_dictLookup_none {m : List (String × Question)} {k : String}
    (h : dictLookup k m = none) : k ∉ dictKeys m := by
  intro hmem
  rcases dictLookup_isSome_of_mem_keys hmem with ⟨v, hv⟩
  rw [hv] at h
  cases h

/-- `random.choice` on a non-empty pool always yields an element. -/
theorem randomChoice_isSome {α : Type} {l : List α} (h : l ≠ []) (pick : Nat) :
    ∃ a, randomChoice pick l = some a := by
  have hlen : 0 < l.length := List.length_pos.mpr h
  have hmod : pick % l.length < l.length := Nat.mod_lt _ hlen
  exact ⟨l.get ⟨_, hmod⟩, List.get?_eq_get hmod⟩

/-- The head of a filtered list is the first element satisfying the
predicate. -/
theorem filter_head?_eq_find? {α : Type} (p : α → Bool) (l : List α) :
    (l.filter p).head? = l.find? p := by
  induction l with
  | nil => rfl
  | cons a l ih =>
    by_cases hp : p a
    · simp [List.filter_cons, List.find?_cons, hp]
    · simp [List.filter_cons, List.find?_cons, hp, ih]

theorem find?_true_eq_head? {α : Type} (l : List α) :
    l.find? (fun _ => true) = l.head? := by
  cases l <;> rfl

/-! ### C3 -/

/-- C3: with the empty taunt pool that `fetch_taunting_responses` returns on
a failed fetch, an incorrect non-give-up answer in `waiting_answer` makes
`random.choice(taunting_responses)` raise `IndexError`: no reply directive
is produced and the `log_answer` call after the reply is skipped.  The
session state is unchanged (the raise happens before any mutation).  This
contradicts the spec requirement that an empty pool be handled with a
fallback message: the code is at fault. -/
theorem C3_empty_taunt_pool :
    handle_message envNoTaunts ⟨.waitingAnswer, none, some "Q1"⟩ "U" "X" 0 =
      .error .indexError := by
  decide

/-! ### C4 -/

/-- C4, counterexample.  A session whose `question_id` is set to an
identifier absent from the catalog does NOT survive every step: in
`waiting_answer` the lookup `questions[state["question_id"]]` raises
`KeyError`, a hard failure, refuting the claim for that step. -/
theorem C4_counterexample :
    handle_message env1 ⟨.waitingAnswer, none, some "ZZ"⟩ "U" "x" 0 = .error .keyError := by
  decide

/-- C4, amended.  For a session whose current question identifier is set but
absent from the catalog, processing completes without a hard failure in the
`waiting_question` and `waiting_confirmation` steps (in the latter, on a
non-"no" input, the identifier is treated as index -1 and the machine falls
through to the "no questions remain" behavior); in `waiting_answer` the
catalog lookup raises `KeyError`. -/
theorem C4_inconsistent_recovery :
    ∀ (env : Env) (s : Session) (uid t : String) (pick : Nat) (q : String),
      s.questionId = some q → dictLookup q env.questions = none →
      s.step ≠ .waitingAnswer →
      ∃ s' msgs, handle_message env s uid t pick = .ok (s', msgs, []) ∧
        (s.step = .waitingConfirmation → t ≠ "いいえ" → s' = ⟨.waitingQuestion, none, some q⟩) := by
  intro env s uid t pick q hqid hlook hstep
  obtain ⟨st, cat, qid⟩ := s
  dsimp only at hqid hstep ⊢
  subst hqid
  cases st
  case waitingAnswer => exact absurd rfl hstep
  case waitingQuestion =>
    unfold handle_message
    dsimp only
    by_cases hhas : dictHas env.questions (upperStr t) = true
    · rw [if_pos hhas]
      rcases dictLookup_isSome_of_dictHas hhas with ⟨v, hv⟩
      cases hsq : send_question env ⟨.waitingQuestion, cat, some q⟩ (upperStr t) with
      | error e =>
        unfold send_question at hsq
        rw [hv] at hsq
        exact absurd hsq (by simp)
      | ok p =>
        obtain ⟨s2, msgs2⟩ := p
        exact ⟨s2, msgs2, rfl, fun hc => by cases hc⟩
    · rw [if_neg hhas]
      by_cases hcat : t ∈ env.categories ∨ t = "すべて"
      · rw [if_pos hcat]
        exact ⟨_, _, rfl, fun hc => by cases hc⟩
      · rw [if_neg hcat]
        exact ⟨_, _, rfl, fun hc => by cases hc⟩
  case waitingConfirmation =>
    unfold handle_message
    dsimp only
    by_cases hno : t = "いいえ"
    · rw [if_pos hno]
      exact ⟨_, _, rfl, fun _ ht => absurd hno ht⟩
    · rw [if_neg hno]
      rw [if_neg (not_mem_keys_of_dictLookup_none hlook)]
      cases cat with
      | none => exact ⟨_, _, rfl, fun _ _ => rfl⟩
      | some c => exact ⟨_, _, rfl, fun _ _ => rfl⟩

/-- C4, witness: the amended recovery evaluated on a confirmation-step
session holding the dangling identifier "ZZ". -/
theorem C4_inconsistent_recovery_witness :
    ∃ s' msgs,
      handle_message env1 ⟨.waitingConfirmation, none, some "ZZ"⟩ "U" "はい" 0 =
        .ok (s', msgs, []) ∧
      ((Session.mk .waitingConfirmation none (some "ZZ")).step = .waitingConfirmation →
        "はい" ≠ "いいえ" → s' = ⟨.waitingQuestion, none, some "ZZ"⟩) :=
  C4_inconsistent_recovery env1 ⟨.waitingConfirmation, none, some "ZZ"⟩ "U" "はい" 0 "ZZ"
    rfl (by decide) (by decide)

/-! ### C6 -/

/-- C6, counterexample.  With an empty taunt pool, an incorrect non-give-up
answer attempt in `waiting_answer` aborts with `IndexError` before reaching
the `log_answer` call, so that attempt emits no log event — refuting "exactly
one log event on every branch". -/
theorem C6_counterexample :
    handle_message envNoTaunts ⟨.waitingAnswer, none, some "Q1"⟩ "U" "Y" 0 =
      .error .indexError := by
  decide

/-- C6, amended.  Provided the taunt pool is non-empty, every answer attempt
processed in `waiting_answer` — correct, incorrect, or give-up — emits
exactly one log event carrying the user id, the quoted question id, the raw
answer text, the normalized correct answer, and the comparison result. -/
theorem C6_answer_logging :
    ∀ (env : Env) (s : Session) (uid t : String) (pick : Nat) (q : String)
      (question : Question),
      env.taunts ≠ [] → s.step = .waitingAnswer → s.questionId = some q →
      dictLookup q env.questions = some question →
      ∃ s' msgs, handle_message env s uid t pick =
        .ok (s', msgs,
          [⟨uid, quotePrefix ++ q, t, normalize_answer question.answer,
            normalize_answer t == normalize_answer question.answer⟩]) := by
  intro env s uid t pick q question htaunts hstep hqid hlook
  obtain ⟨st, cat, qid⟩ := s
  dsimp only at hstep hqid
  subst hstep
  subst hqid
  unfold handle_message
  dsimp only
  rw [hlook]
  dsimp only
  by_cases hcond : (normalize_answer t == normalize_answer question.answer || t == "ギブアップ") = true
  · rw [if_pos hcond]
    exact ⟨_, _, rfl⟩
  · rw [if_neg hcond]
    rcases randomChoice_isSome htaunts pick with ⟨a, ha⟩
    rw [ha]
    exact ⟨_, _, rfl⟩

/-- C6, witness: the single log event on a concrete correct answer. -/
theorem C6_answer_logging_witness :
    ∃ s' msgs, handle_message env1 ⟨.waitingAnswer, none, some "Q1"⟩ "U" "A" 0 =
      .ok (s', msgs,
        [⟨"U", quotePrefix ++ "Q1", "A", normalize_answer sampleQ1.answer,
          normalize_answer "A" == normalize_answer sampleQ1.answer⟩]) :=
  C6_answer_logging env1 ⟨.waitingAnswer, none, some "Q1"⟩ "U" "A" 0 "Q1" sampleQ1
    (by decide) rfl rfl (by decide)

/-! ### C7 -/

/-- C7, counterexample.  For the question whose correct answer IS the
give-up token, sending "ギブアップ" logs `result = true`, refuting
"isCorrect = false regardless of the actual correct-answer text" (the code
computes `result` by normalization before testing the give-up token). -/
theorem C7_counterexample :
    handle_message envG ⟨.waitingAnswer, none, some "QG"⟩ "U" "ギブアップ" 0 =
      .ok (⟨.waitingConfirmation, none, some "QG"⟩,
        [Msg.text "正解！\neg\n正答率: 10%\nテーマ: tg\nカテゴリ: catA\n続けますか？ [はい/いいえ]"],
        [⟨"U", quotePrefix ++ "QG", "ギブアップ", normalize_answer "ギブアップ", true⟩]) := by
  decide

/-- C7, amended.  Sending the give-up token in `waiting_answer` always
transitions to `waiting_confirmation`; the logged result equals the
normalized comparison of the token with the correct answer, and so is false
for every question whose correct answer does not itself normalize to the
give-up token. -/
theorem C7_giveup :
    ∀ (env : Env) (s : Session) (uid : String) (pick : Nat) (q : String)
      (question : Question),
      s.step = .waitingAnswer → s.questionId = some q →
      dictLookup q env.questions = some question →
      (∃ msgs, handle_message env s uid "ギブアップ" pick =
        .ok ({ s with step := .waitingConfirmation }, msgs,
          [⟨uid, quotePrefix ++ q, "ギブアップ", normalize_answer question.answer,
            normalize_answer "ギブアップ" == normalize_answer question.answer⟩]))
      ∧ (normalize_answer question.answer ≠ normalize_answer "ギブアップ" →
          (normalize_answer "ギブアップ" == normalize_answer question.answer) = false) := by
  intro env s uid pick q question hstep hqid hlook
  obtain ⟨st, cat, qid⟩ := s
  dsimp only at hstep hqid
  subst hstep
  subst hqid
  constructor
  · unfold handle_message
    dsimp only
    rw [hlook]
    dsimp only
    rw [if_pos (by rw [show (("ギブアップ" : String) == "ギブアップ") = true from by decide, Bool.or_true])]
    exact ⟨_, rfl⟩
  · intro hne
    exact beq_eq_false_iff_ne.mpr (fun h => hne h.symm)

/-- C7, witness: give-up evaluated on a concrete question whose correct
answer ("A") does not normalize to the give-up token. -/
theorem C7_giveup_witness :
    (∃ msgs, handle_message env1 ⟨.waitingAnswer, none, some "Q1"⟩ "U" "ギブアップ" 0 =
      .ok (⟨.waitingConfirmation, none, some "Q1"⟩, msgs,
        [⟨"U", quotePrefix ++ "Q1", "ギブアップ", normalize_answer sampleQ1.answer,
          normalize_answer "ギブアップ" == normalize_answer sampleQ1.answer⟩]))
    ∧ (normalize_answer sampleQ1.answer ≠ normalize_answer "ギブアップ" →
        (normalize_answer "ギブアップ" == normalize_answer sampleQ1.answer) = false) :=
  C7_giveup env1 ⟨.waitingAnswer, none, some "Q1"⟩ "U" 0 "Q1" sampleQ1 rfl rfl (by decide)

/-! ### C8 -/

/-- C8: normalization is order- and width-insensitive — `"B,A"` and
`"A, B"` normalize identically, and for any question whose correct answer
normalizes to "ab", the full-width reversed input "Ｂ，Ａ" in
`waiting_answer` is logged as correct and moves the session to
`waiting_confirmation`. -/
theorem C8_normalize_insensitive :
    normalize_answer "B,A" = normalize_answer "A, B" ∧
    ∀ (env : Env) (s : Session) (uid : String) (pick : Nat) (q : String)
      (question : Question),
      s.step = .waitingAnswer → s.questionId = some q →
      dictLookup q env.questions = some question →
      normalize_answer question.answer = "ab" →
      ∃ msgs, handle_message env s uid "Ｂ，Ａ" pick =
        .ok ({ s with step := .waitingConfirmation }, msgs,
          [⟨uid, quotePrefix ++ q, "Ｂ，Ａ", "ab", true⟩]) := by
  constructor
  · decide
  · intro env s uid pick q question hstep hqid hlook hnorm
    obtain ⟨st, cat, qid⟩ := s
    dsimp only at hstep hqid
    subst hstep
    subst hqid
    unfold handle_message
    dsimp only
    rw [hlook]
    dsimp only
    rw [hnorm, show normalize_answer "Ｂ，Ａ" = "ab" from by decide]
    rw [if_pos (by decide)]
    exact ⟨_, rfl⟩

/-- C8, witness: the full-width reversed answer accepted on a concrete
question with correct answer "AB". -/
theorem C8_normalize_insensitive_witness :
    ∃ msgs, handle_message (buildEnv [⟨"QA", "pa", "ca", "", "AB", "ea", "30%", "ta", "catA"⟩] ["zako"])
        ⟨.waitingAnswer, none, some "QA"⟩ "U" "Ｂ，Ａ" 0 =
      .ok (⟨.waitingConfirmation, none, some "QA"⟩, msgs,
        [⟨"U", quotePrefix ++ "QA", "Ｂ，Ａ", "ab", true⟩]) :=
  C8_normalize_insensitive.2 (buildEnv [⟨"QA", "pa", "ca", "", "AB", "ea", "30%", "ta", "catA"⟩] ["zako"])
    ⟨.waitingAnswer, none, some "QA"⟩ "U" 0 "QA" ⟨"QA", "pa", "ca", "", "AB", "ea", "30%", "ta", "catA"⟩
    rfl rfl (by decide) (by decide)

/-! ### C9 -/

/-- C9: with an empty question catalog, `waiting_question` processes every
inbound text without failing, emits no log event, and — for every input
other than the "すべて" token — leaves the session unchanged and replies
with the help directive (whose category list is empty). -/
theorem C9_empty_catalog :
    ∀ (taunts : List String) (s : Session) (uid t : String) (pick : Nat),
      s.step = .waitingQuestion →
      ∃ s' msgs, handle_message (buildEnv [] taunts) s uid t pick = .ok (s', msgs, []) ∧
        (t ≠ "すべて" → s' = s ∧
          msgs = [Msg.text "問題番号かカテゴリを入力してください\n, すべて"]) := by
  intro taunts s uid t pick hstep
  obtain ⟨st, cat, qid⟩ := s
  dsimp only at hstep
  subst hstep
  unfold handle_message
  dsimp only
  rw [if_neg (show ¬(dictHas (buildEnv [] taunts).questions (upperStr t) = true) from by
    simp [buildEnv, buildDict, dictHas])]
  by_cases hall : t = "すべて"
  · rw [if_pos (Or.inr hall)]
    exact ⟨_, _, rfl, fun hne => absurd hall hne⟩
  · rw [if_neg (show ¬(t ∈ (buildEnv [] taunts).categories ∨ t = "すべて") from by
      simp [buildEnv, buildDict, categoriesOf, hall])]
    refine ⟨_, _, rfl, fun _ => ⟨rfl, ?_⟩⟩
    rw [show (buildEnv [] taunts).categories = [] from rfl]
    decide

/-- C9, witness: the question-number input "5" against the empty catalog
falls into the help branch and changes nothing. -/
theorem C9_empty_catalog_witness :
    ∃ s' msgs, handle_message (buildEnv [] []) initSession "U" "5" 0 = .ok (s', msgs, []) ∧
      ("5" ≠ "すべて" → s' = initSession ∧
        msgs = [Msg.text "問題番号かカテゴリを入力してください\n, すべて"]) :=
  C9_empty_catalog [] initSession "U" "5" 0 rfl

end Medubot
namespace Medubot

/-- The category test applied while scanning for the next question:
every identifier passes when no filter is set; otherwise the identifier's
question must carry the filtered category. -/
def nextPred (env : Env) (cat : Option String) : String → Bool :=
  fun k =>
    match cat with
    | none => true
    | some c =>
      match dictLookup k env.questions with
      | some qq => qq.category == c
      | none => false

/-- The next-question rule as the spec words it: the first catalog
identifier strictly after the current question's position in load order
that satisfies the active category filter — a deterministic linear scan
with no randomization and no wraparound. -/
def nextCandidate (env : Env) (cat : Option String) (q : String) : Option String :=
  let ids := dictKeys env.questions
  (ids.drop (ids.indexOf q + 1)).find? (nextPred env cat)

/-- C5: in AwaitingConfirmation on any input other than the "no" token,
if the first in-load-order identifier after the current question that
passes the category filter exists, the session moves to `waiting_answer`
on it; otherwise the session returns to `waiting_question` with the
end-of-questions directive. -/
theorem C5_next_question :
    ∀ (env : Env) (s : Session) (uid t : String) (pick : Nat) (q : String),
      s.step = .waitingConfirmation → t ≠ "いいえ" → s.questionId = some q →
      q ∈ dictKeys env.questions →
      (∀ nid, nextCandidate env s.category q = some nid →
        ∃ msgs, handle_message env s uid t pick =
          .ok ({ s with step := .waitingAnswer, questionId := some nid }, msgs, []))
      ∧ (nextCandidate env s.category q = none →
        ∃ msgs, handle_message env s uid t pick =
          .ok (⟨.waitingQuestion, none, some q⟩, msgs, [])) := by
  intro env s uid t pick q hstep ht hqid hmem
  obtain ⟨st, cat, qid⟩ := s
  dsimp only at hstep hqid ⊢
  subst hstep
  subst hqid
  unfold handle_message nextCandidate
  dsimp only
  rw [if_neg ht]
  rw [if_pos hmem]
  cases cat with
  | none =>
    dsimp only
    rw [show nextPred env none = (fun _ => true) from rfl, find?_true_eq_head?]
    cases hrem : (dictKeys env.questions).drop ((dictKeys env.questions).indexOf q + 1) with
    | nil =>
      constructor
      · intro nid hnid
        cases hnid
      · intro _
        exact ⟨_, rfl⟩
    | cons a rest =>
      have hmem2 : a ∈ dictKeys env.questions :=
        List.mem_of_mem_drop (hrem ▸ List.mem_cons_self a rest)
      rcases dictLookup_isSome_of_mem_keys hmem2 with ⟨v, hv⟩
      constructor
      · intro nid hnid
        simp only [List.head?_cons, Option.some.injEq] at hnid
        cases hnid
        dsimp only
        cases hsq : send_question env ⟨.waitingConfirmation, none, some q⟩ a with
        | error e =>
          unfold send_question at hsq
          rw [hv] at hsq
          exact absurd hsq (by simp)
        | ok p =>
          obtain ⟨s2, msgs2⟩ := p
          refine ⟨msgs2, ?_⟩
          rw [send_question_ok hsq]
      · intro hnone
        cases hnone
  | some c =>
    dsimp only
    rw [show nextPred env (some c) = (fun k =>
        match dictLookup k env.questions with
        | some qq => qq.category == c
        | none => false) from rfl]
    rw [← filter_head?_eq_find?]
    cases hflt : ((dictKeys env.questions).drop ((dictKeys env.questions).indexOf q + 1)).filter
        (fun k =>
          match dictLookup k env.questions with
          | some qq => qq.category == c
          | none => false) with
    | nil =>
      constructor
      · intro nid hnid
        cases hnid
      · intro _
        exact ⟨_, rfl⟩
    | cons a rest =>
      have hmem2 : a ∈ dictKeys env.questions := by
        have ha : a ∈ ((dictKeys env.questions).drop ((dictKeys env.questions).indexOf q + 1)).filter
            (fun k =>
              match dictLookup k env.questions with
              | some qq => qq.category == c
              | none => false) := hflt ▸ List.mem_cons_self a rest
        exact List.mem_of_mem_drop (List.mem_of_mem_filter ha)
      rcases dictLookup_isSome_of_mem_keys hmem2 with ⟨v, hv⟩
      constructor
      · intro nid hnid
        simp only [List.head?_cons, Option.some.injEq] at hnid
        cases hnid
        dsimp only
        cases hsq : send_question env ⟨.waitingConfirmation, some c, some q⟩ a with
        | error e =>
          unfold send_question at hsq
          rw [hv] at hsq
          exact absurd hsq (by simp)
        | ok p =>
          obtain ⟨s2, msgs2⟩ := p
          refine ⟨msgs2, ?_⟩
          rw [send_question_ok hsq]
      · intro hnone
        cases hnone

/-- C5, witness: the spec's own example — catalog [Q1(catA), Q2(catB),
Q3(catA)], filter "catA", confirming at Q1 advances directly to Q3,
skipping Q2. -/
theorem C5_next_question_witness :
    ∃ msgs, handle_message env3 ⟨.waitingConfirmation, some "catA", some "Q1"⟩ "U" "はい" 0 =
      .ok (⟨.waitingAnswer, some "catA", some "Q3"⟩, msgs, []) :=
  (C5_next_question env3 ⟨.waitingConfirmation, some "catA", some "Q1"⟩ "U" "はい" 0 "Q1"
    rfl (by decide) rfl (by decide)).1 "Q3" (by decide)

end Medubot
namespace Medubot

/-- A map whose function fixes every element of the list is the identity. -/
theorem map_id_of {α : Type} {f : α → α} : ∀ {l : List α}, (∀ c ∈ l, f c = c) → l.map f = l := by
  intro l h
  induction l with
  | nil => rfl
  | cons a l ih =>
    simp only [List.map_cons, h a (List.mem_cons_self a l),
      ih (fun c hc => h c (List.mem_cons_of_mem a hc))]

/-- The character-level NFKC map is idempotent: its outputs (an ASCII
character from the full-width block, the ASCII space, or an untouched
character) are all NFKC-fixed. -/
theorem nfkcChar_idem (c : Char) : nfkcChar (nfkcChar c) = nfkcChar c := by
  have hb : ∀ m, m < 0x7F → (0x21 ≤ m → nfkcChar (Char.ofNat m) = Char.ofNat m) := by decide
  by_cases h1 : c.toNat = 0x3000
  · have hd : nfkcChar c = ' ' := by unfold nfkcChar; rw [if_pos h1]
    rw [hd]
    decide
  · by_cases h2 : 0xFF01 ≤ c.toNat ∧ c.toNat ≤ 0xFF5E
    · have hd : nfkcChar c = Char.ofNat (c.toNat - 0xFF01 + 0x21) := by
        unfold nfkcChar; rw [if_neg h1, if_pos h2]
      rw [hd]
      exact hb _ (by omega) (by omega)
    · have hd : nfkcChar c = c := by unfold nfkcChar; rw [if_neg h1, if_neg h2]
      rw [hd, hd]

/-- C2, counterexample.  `normalize_answer` is NOT idempotent: sorting
happens before lower-casing, so "Ba" (code points B=66 < a=97, already
sorted) normalizes to "ba", which re-normalizes to "ab". -/
theorem C2_counterexample :
    normalize_answer (normalize_answer "Ba") ≠ normalize_answer "Ba" := by
  decide

/-- A character on which the character-wise NFKC and lower-case models
coincide with Python: ASCII, the ideographic space, or the full-width
ASCII block.  Such characters are never combining marks and never compose
with a neighbour under real NFKC, and their only case mappings are the
ASCII ones. -/
def modeledChar (c : Char) : Prop :=
  c.toNat < 0x80 ∨ c.toNat = 0x3000 ∨ (0xFF01 ≤ c.toNat ∧ c.toNat ≤ 0xFF5E)

instance (c : Char) : Decidable (modeledChar c) := by
  unfold modeledChar
  infer_instance

/-- C2, amended.  `normalize_answer` is idempotent on every string of
ASCII / full-width-ASCII / ideographic-space characters whose characters —
after width folding and comma/space removal — are unchanged by
lower-casing (in particular on such strings without uppercase letters).
Both restrictions are forced: "Ba" shows the sort-before-lower failure,
and outside the modeled character range real NFKC breaks idempotence by
itself, because the code-point sort can move a combining mark behind its
base and the second pass then recomposes the pair (the character-wise
`nfkcChar` cannot express that, which is why the claim is confined to the
domain where the model provably matches Python). -/
theorem C2_normalize_idempotent (x : String)
    (_hdom : ∀ c ∈ x.data, modeledChar c)
    (h : ∀ c ∈ (stripCommaSpace (nfkcStr x)).data, lowerChar c = c) :
    normalize_answer (normalize_answer x) = normalize_answer x := by
  have hperm : List.Perm (List.insertionSort (fun a b => a ≤ b) (stripCommaSpace (nfkcStr x)).data)
      (stripCommaSpace (nfkcStr x)).data := List.perm_insertionSort _ _
  have hmem : ∀ c ∈ List.insertionSort (fun a b => a ≤ b) (stripCommaSpace (nfkcStr x)).data,
      c ∈ (stripCommaSpace (nfkcStr x)).data := fun c hc => hperm.mem_iff.mp hc
  have hmap1 : (List.insertionSort (fun a b => a ≤ b) (stripCommaSpace (nfkcStr x)).data).map lowerChar =
      List.insertionSort (fun a b => a ≤ b) (stripCommaSpace (nfkcStr x)).data :=
    map_id_of (fun c hc => h c (hmem c hc))
  have hnorm1 : normalize_answer x =
      String.mk (List.insertionSort (fun a b => a ≤ b) (stripCommaSpace (nfkcStr x)).data) := by
    unfold normalize_answer lowerStr
    rw [show (String.mk (List.insertionSort (fun a b => a ≤ b) (stripCommaSpace (nfkcStr x)).data)).data =
      List.insertionSort (fun a b => a ≤ b) (stripCommaSpace (nfkcStr x)).data from rfl]
    rw [hmap1]
  have hP : ∀ c ∈ (stripCommaSpace (nfkcStr x)).data, (!(c == ',' || c == ' ')) = true := by
    intro c hc
    exact (List.mem_filter.mp
      (show c ∈ (nfkcStr x).data.filter (fun c => !(c == ',' || c == ' ')) from hc)).2
  have hnf : ∀ c ∈ (stripCommaSpace (nfkcStr x)).data, nfkcChar c = c := by
    intro c hc
    have hc2 : c ∈ x.data.map nfkcChar :=
      (List.mem_filter.mp
        (show c ∈ ((x.data.map nfkcChar).filter (fun c => !(c == ',' || c == ' '))) from hc)).1
    rcases List.mem_map.mp hc2 with ⟨c0, -, rfl⟩
    exact nfkcChar_idem c0
  have h1 : nfkcStr (String.mk (List.insertionSort (fun a b => a ≤ b)
        (stripCommaSpace (nfkcStr x)).data)) =
      String.mk (List.insertionSort (fun a b => a ≤ b) (stripCommaSpace (nfkcStr x)).data) :=
    congrArg String.mk (map_id_of (fun c hc => hnf c (hmem c hc)))
  have h2 : stripCommaSpace (String.mk (List.insertionSort (fun a b => a ≤ b)
        (stripCommaSpace (nfkcStr x)).data)) =
      String.mk (List.insertionSort (fun a b => a ≤ b) (stripCommaSpace (nfkcStr x)).data) :=
    congrArg String.mk (List.filter_eq_self.mpr (fun c hc => hP c (hmem c hc)))
  have key : (stripCommaSpace (nfkcStr
      (String.mk (List.insertionSort (fun a b => a ≤ b) (stripCommaSpace (nfkcStr x)).data)))).data =
      List.insertionSort (fun a b => a ≤ b) (stripCommaSpace (nfkcStr x)).data := by
    rw [h1, h2]
  have hsorted : List.Sorted (fun a b => a ≤ b)
      (List.insertionSort (fun a b => a ≤ b) (stripCommaSpace (nfkcStr x)).data) :=
    List.sorted_insertionSort _ _
  rw [hnorm1]
  unfold normalize_answer
  rw [key]
  rw [hsorted.insertionSort_eq]
  unfold lowerStr
  rw [show (String.mk (List.insertionSort (fun a b => a ≤ b) (stripCommaSpace (nfkcStr x)).data)).data =
    List.insertionSort (fun a b => a ≤ b) (stripCommaSpace (nfkcStr x)).data from rfl]
  rw [hmap1]

/-- C2, witness: the amended idempotence evaluated on "b,a" (all ASCII,
no uppercase). -/
theorem C2_normalize_idempotent_witness :
    (∀ c ∈ ("b,a" : String).data, modeledChar c) ∧
    (∀ c ∈ (stripCommaSpace (nfkcStr "b,a")).data, lowerChar c = c) ∧
    normalize_answer (normalize_answer "b,a") = normalize_answer "b,a" :=
  ⟨by decide, by decide, C2_normalize_idempotent "b,a" (by decide) (by decide)⟩

end Medubot
namespace Medubot

/-- The claimed key order of the catalog: each identifier at the position
of its first occurrence, later duplicates dropped. -/
def firstOccurrences : List String → List String
  | [] => []
  | k :: ks => k :: (firstOccurrences ks).filter (fun a => a != k)

/-- The claimed value selection of the catalog: the last fetched record
bearing the identifier, if any. -/
def lastWith (k : String) : List Question → Option Question
  | [] => none
  | q :: rs =>
    match lastWith k rs with
    | some q2 => some q2
    | none => if q.id == k then some q else none

theorem dictHas_iff {m : List (String × Question)} {a : String} :
    dictHas m a = true ↔ a ∈ dictKeys m := by
  unfold dictHas dictKeys
  rw [List.any_eq_true]
  constructor
  · rintro ⟨p, hp, he⟩
    exact List.mem_map.mpr ⟨p, hp, beq_iff_eq.mp he⟩
  · intro h
    rcases List.mem_map.mp h with ⟨p, hp, he⟩
    exact ⟨p, hp, beq_iff_eq.mpr he⟩

theorem keys_insertEntry (m : List (String × Question)) (k : String) (v : Question) :
    dictKeys (insertEntry m k v) = if dictHas m k = true then dictKeys m else dictKeys m ++ [k] := by
  unfold insertEntry
  by_cases h : dictHas m k = true
  · rw [if_pos h, if_pos h]
    unfold dictKeys
    rw [List.map_map]
    apply List.map_congr_left
    intro p _
    by_cases hp : p.1 = k
    · simp [hp]
    · simp [hp]
  · rw [if_neg h, if_neg h]
    simp [dictKeys]

theorem dictHas_insertEntry (m : List (String × Question)) (k : String) (v : Question)
    (a : String) : dictHas (insertEntry m k v) a = (dictHas m a || a == k) := by
  have hkeys := keys_insertEntry m k v
  by_cases h : dictHas m k = true
  · rw [if_pos h] at hkeys
    by_cases hak : a = k
    · subst hak
      simp only [h]
      rw [Bool.eq_iff_iff]
      simp [dictHas_iff, hkeys]
      exact dictHas_iff.mp h
    · rw [Bool.eq_iff_iff]
      simp only [Bool.or_eq_true, beq_iff_eq, hak, or_false]
      rw [dictHas_iff, dictHas_iff, hkeys]
  · rw [if_neg h] at hkeys
    rw [Bool.eq_iff_iff]
    simp only [Bool.or_eq_true, beq_iff_eq]
    rw [dictHas_iff, dictHas_iff, hkeys]
    simp [List.mem_append]

theorem filter_firstOccurrences (p : String → Bool) (l : List String) :
    (firstOccurrences l).filter p = firstOccurrences (l.filter p) := by
  induction l with
  | nil => rfl
  | cons k ks ih =>
    by_cases hk : p k = true
    · rw [show firstOccurrences (k :: ks) =
        k :: (firstOccurrences ks).filter (fun a => a != k) from rfl]
      rw [List.filter_cons_of_pos hk]
      rw [List.filter_cons_of_pos hk]
      rw [show firstOccurrences (k :: List.filter p ks) =
        k :: (firstOccurrences (List.filter p ks)).filter (fun a => a != k) from rfl]
      rw [← ih]
      rw [List.filter_filter, List.filter_filter]
      congr 1
      apply List.filter_congr
      intro a _
      rw [Bool.and_comm]
    · have hk2 : p k = false := by revert hk; cases (p k) <;> simp
      rw [show firstOccurrences (k :: ks) =
        k :: (firstOccurrences ks).filter (fun a => a != k) from rfl]
      rw [List.filter_cons_of_neg hk]
      rw [List.filter_cons_of_neg hk]
      rw [← ih]
      rw [List.filter_filter]
      apply List.filter_congr
      intro a _
      by_cases hak : a = k
      · subst hak
        simp [hk2]
      · have hbne : (a != k) = true := bne_iff_ne.mpr hak
        simp [hbne]
end Medubot
namespace Medubot

theorem firstOccurrences_nodup (l : List String) : (firstOccurrences l).Nodup := by
  induction l with
  | nil => exact List.nodup_nil
  | cons k ks ih =>
    rw [show firstOccurrences (k :: ks) =
      k :: (firstOccurrences ks).filter (fun a => a != k) from rfl]
    refine List.nodup_cons.mpr ⟨?_, ih.filter _⟩
    intro hmem
    have hh := (List.mem_filter.mp hmem).2
    simp at hh

theorem keys_foldl (rs : List Question) : ∀ (m : List (String × Question)),
    dictKeys (rs.foldl (fun m q => insertEntry m q.id q) m) =
      dictKeys m ++ firstOccurrences ((rs.map Question.id).filter (fun a => !dictHas m a)) := by
  induction rs with
  | nil => intro m; simp [firstOccurrences]
  | cons q rs ih =>
    intro m
    rw [List.foldl_cons]
    rw [ih (insertEntry m q.id q)]
    rw [keys_insertEntry]
    by_cases h : dictHas m q.id = true
    · rw [if_pos h]
      rw [List.map_cons]
      rw [List.filter_cons_of_neg (by simp [h])]
      congr 2
      apply List.filter_congr
      intro a _
      rw [dictHas_insertEntry]
      by_cases hak : a = q.id
      · subst hak
        simp [h]
      · have hf : (a == q.id) = false := beq_eq_false_iff_ne.mpr hak
        simp [hf]
    · rw [if_neg h]
      have h2 : dictHas m q.id = false := by revert h; cases (dictHas m q.id) <;> simp
      rw [List.map_cons]
      rw [List.filter_cons_of_pos (by simp [h2])]
      rw [show firstOccurrences (q.id ::
          List.filter (fun a => !dictHas m a) (List.map Question.id rs)) =
        q.id :: (firstOccurrences
          (List.filter (fun a => !dictHas m a) (List.map Question.id rs))).filter
            (fun a => a != q.id) from rfl]
      rw [filter_firstOccurrences]
      rw [List.filter_filter]
      rw [List.append_assoc]
      rw [List.singleton_append]
      congr 2
      congr 1
      apply List.filter_congr
      intro a _
      rw [dictHas_insertEntry]
      by_cases hak : a = q.id
      · subst hak
        simp [h2]
      · have hf : (a == q.id) = false := beq_eq_false_iff_ne.mpr hak
        have hbne : (a != q.id) = true := bne_iff_ne.mpr hak
        simp [hf, hbne]

theorem dictLookup_map_replace_ne (ps : List (String × Question)) (k k' : String)
    (v : Question) (h2 : ¬(k' = k)) :
    dictLookup k (ps.map (fun p => if p.1 == k' then (k', v) else p)) = dictLookup k ps := by
  induction ps with
  | nil => rfl
  | cons p ps ih =>
    simp only [List.map_cons]
    by_cases h1 : p.1 = k'
    · have hb1 : (p.1 == k') = true := beq_iff_eq.mpr h1
      have hbk : (k' == k) = false := beq_eq_false_iff_ne.mpr h2
      have hbp : (p.1 == k) = false := beq_eq_false_iff_ne.mpr (by rw [h1]; exact h2)
      rw [if_pos hb1]
      rw [show dictLookup k ((k', v) ::
          List.map (fun p => if p.1 == k' then (k', v) else p) ps) =
        (if (k' == k) = true then some v
         else dictLookup k (List.map (fun p => if p.1 == k' then (k', v) else p) ps)) from rfl]
      rw [show dictLookup k (p :: ps) =
        (if (p.1 == k) = true then some p.2 else dictLookup k ps) from rfl]
      rw [hbk, hbp]
      rw [if_neg (by exact Bool.false_ne_true), if_neg (by exact Bool.false_ne_true)]
      exact ih
    · have hb1 : (p.1 == k') = false := beq_eq_false_iff_ne.mpr h1
      rw [if_neg (by rw [hb1]; exact Bool.false_ne_true)]
      rw [show dictLookup k (p ::
          List.map (fun p => if p.1 == k' then (k', v) else p) ps) =
        (if (p.1 == k) = true then some p.2
         else dictLookup k (List.map (fun p => if p.1 == k' then (k', v) else p) ps)) from rfl]
      rw [show dictLookup k (p :: ps) =
        (if (p.1 == k) = true then some p.2 else dictLookup k ps) from rfl]
      by_cases h3 : (p.1 == k) = true
      · rw [if_pos h3, if_pos h3]
      · rw [if_neg h3, if_neg h3, ih]

theorem dictLookup_map_replace_eq (ps : List (String × Question)) (k' : String) (v : Question)
    (h : dictHas ps k' = true) :
    dictLookup k' (ps.map (fun p => if p.1 == k' then (k', v) else p)) = some v := by
  induction ps with
  | nil => simp [dictHas] at h
  | cons p ps ih =>
    simp only [List.map_cons]
    by_cases h1 : p.1 = k'
    · have hb1 : (p.1 == k') = true := beq_iff_eq.mpr h1
      rw [if_pos hb1]
      rw [show dictLookup k' ((k', v) ::
          List.map (fun p => if p.1 == k' then (k', v) else p) ps) =
        (if (k' == k') = true then some v
         else dictLookup k' (List.map (fun p => if p.1 == k' then (k', v) else p) ps)) from rfl]
      rw [if_pos (by simp)]
    · have hb1 : (p.1 == k') = false := beq_eq_false_iff_ne.mpr h1
      have hps : dictHas ps k' = true := by
        revert h
        unfold dictHas
        rw [List.any_cons, hb1]
        simp [dictHas]
      rw [if_neg (by rw [hb1]; exact Bool.false_ne_true)]
      rw [show dictLookup k' (p ::
          List.map (fun p => if p.1 == k' then (k', v) else p) ps) =
        (if (p.1 == k') = true then some p.2
         else dictLookup k' (List.map (fun p => if p.1 == k' then (k', v) else p) ps)) from rfl]
      rw [if_neg (by rw [hb1]; exact Bool.false_ne_true)]
      exact ih hps

theorem dictLookup_append (m : List (String × Question)) (k k' : String) (v : Question)
    (h : dictHas m k' = false) :
    dictLookup k (m ++ [(k', v)]) = if k' = k then some v else dictLookup k m := by
  induction m with
  | nil =>
    by_cases hk : k' = k
    · simp [dictLookup, hk]
    · have hb : (k' == k) = false := beq_eq_false_iff_ne.mpr hk
      simp [dictLookup, hk, hb]
  | cons p ps ih =>
    have hcons : (p.1 == k') = false ∧ dictHas ps k' = false := by
      revert h
      unfold dictHas
      rw [List.any_cons]
      cases hpk : (p.1 == k') <;> cases hps : ps.any (fun p => p.1 == k') <;> simp [dictHas, hps]
    rw [List.cons_append]
    by_cases h3 : p.1 = k
    · have hb3 : (p.1 == k) = true := beq_iff_eq.mpr h3
      have h2 : ¬(k' = k) := fun hkk => by
        rw [← hkk] at h3
        exact absurd (beq_iff_eq.mpr h3) (by rw [hcons.1]; simp)
      simp [dictLookup, hb3, h2]
    · have hb3 : (p.1 == k) = false := beq_eq_false_iff_ne.mpr h3
      simp [dictLookup, hb3, ih hcons.2]

theorem dictLookup_insertEntry (m : List (String × Question)) (k k' : String) (v : Question) :
    dictLookup k (insertEntry m k' v) = if k' = k then some v else dictLookup k m := by
  unfold insertEntry
  by_cases h : dictHas m k' = true
  · rw [if_pos h]
    by_cases h2 : k' = k
    · subst h2
      rw [if_pos rfl]
      exact dictLookup_map_replace_eq m k' v h
    · rw [if_neg h2]
      exact dictLookup_map_replace_ne m k k' v h2
  · have h2 : dictHas m k' = false := by revert h; cases (dictHas m k') <;> simp
    rw [if_neg h]
    exact dictLookup_append m k k' v h2

theorem lookup_foldl (rs : List Question) : ∀ (m : List (String × Question)) (k : String),
    dictLookup k (rs.foldl (fun m q => insertEntry m q.id q) m) =
      match lastWith k rs with
      | some q2 => some q2
      | none => dictLookup k m := by
  induction rs with
  | nil => intro m k; rfl
  | cons q rs ih =>
    intro m k
    rw [List.foldl_cons, ih]
    rw [show lastWith k (q :: rs) =
      (match lastWith k rs with
       | some q2 => some q2
       | none => if q.id == k then some q else none) from rfl]
    cases hlast : lastWith k rs with
    | some q2 => rfl
    | none =>
      rw [dictLookup_insertEntry]
      by_cases hqk : q.id = k
      · have hb : (q.id == k) = true := beq_iff_eq.mpr hqk
        rw [hb, if_pos hqk]
        rfl
      · have hb : (q.id == k) = false := beq_eq_false_iff_ne.mpr hqk
        rw [hb, if_neg hqk]
        rfl

/-- C10: for every fetched record sequence, the dict comprehension
`{q["問題ID"]: q for q in question_list}` yields unique keys, ordered by
first occurrence of each identifier, each mapped to the last record bearing
it, and the derived category set ranges over exactly the kept entries. -/
theorem C10_buildDict (rs : List Question) :
    (dictKeys (buildDict rs)).Nodup
    ∧ dictKeys (buildDict rs) = firstOccurrences (rs.map Question.id)
    ∧ (∀ k, dictLookup k (buildDict rs) = lastWith k rs)
    ∧ (∀ c, c ∈ categoriesOf (buildDict rs) ↔ ∃ p ∈ buildDict rs, p.2.category = c) := by
  have hkeys : dictKeys (buildDict rs) = firstOccurrences (rs.map Question.id) := by
    unfold buildDict
    rw [keys_foldl]
    rw [show dictKeys ([] : List (String × Question)) = [] from rfl]
    rw [List.nil_append]
    congr 1
    rw [List.filter_eq_self.mpr]
    intro a _
    rfl
  refine ⟨?_, hkeys, ?_, ?_⟩
  · rw [hkeys]
    exact firstOccurrences_nodup _
  · intro k
    unfold buildDict
    rw [lookup_foldl]
    cases hlast : lastWith k rs <;> rfl
  · intro c
    simp [categoriesOf, List.mem_map]

end Medubot
